import Mathlib

/-!
Shallow embedding of `src/components/InteractiveGrid.tsx`: the cell data
model, the grid builder (`buildCells`), the per-frame simulation step
(proximity activation / fade / easing), and the read-only parts of the
renderer that the specification constrains (connection segments, drawn
cells).  JavaScript numbers are modelled as real numbers; the ambient
`Math.random()` stream is modelled as an explicit function `ℕ → ℝ`
consumed at successive indices.
-/

namespace InteractiveGrid

/-- Shape tag of a cell: `type` field in the source. -/
inductive CellType where
  | hex
  | square
  | diamond
  | circuit
  deriving DecidableEq

/-- One visual cell, mirroring the `Cell` record of the source. -/
structure Cell where
  x : ℝ
  y : ℝ
  size : ℝ
  hue : ℝ
  lightness : ℝ
  targetL : ℝ
  distortionX : ℝ
  distortionY : ℝ
  targetDistortionX : ℝ
  targetDistortionY : ℝ
  noiseOffset : ℝ
  isActivated : Bool
  activationTime : ℝ
  lastHoverTime : ℝ
  type : CellType
  connections : List ℕ

/-- The constant `TAU = Math.PI * 2`. -/
noncomputable def TAU : ℝ := Real.pi * 2

/-- The `noise(x, y, t)` function of the source: sum of three sines scaled by 0.33. -/
noncomputable def noise (x y t : ℝ) : ℝ :=
  (Real.sin (x * 0.01 + t * 0.002) +
   Real.sin (y * 0.015 + t * 0.003) +
   Real.sin ((x + y) * 0.008 + t * 0.001)) * 0.33

/-- The `cellDistance(c, mx, my)` function: Euclidean distance from the cell's displaced
position to the pointer. -/
noncomputable def cellDistance (c : Cell) (mx my : ℝ) : ℝ :=
  Real.sqrt (((c.x + c.distortionX) - mx) * ((c.x + c.distortionX) - mx) +
             ((c.y + c.distortionY) - my) * ((c.y + c.distortionY) - my))

/-- The function `Math.atan2(y, x)`, modelled as the argument of the complex number
`x + y·i` (both return the angle in `(-π, π]`, and `0` at the origin). -/
noncomputable def atan2 (y x : ℝ) : ℝ := Complex.arg ⟨x, y⟩

/-- The `influenceRadius` constant of the render loop. -/
def influenceRadius : ℝ := 80

/-- The `fadeOutDuration` constant of the render loop. -/
def fadeOutDuration : ℝ := 2000

/-- The first per-cell pass of the render loop (lines 269–319 of the
source): hover detection, activation bookkeeping, brightness target and
distortion target computation.  Returns the updated cell. -/
noncomputable def stepCellTargets (mx my time : ℝ) (c : Cell) : Cell :=
  let d := cellDistance c mx my
  let lastHover := if d < influenceRadius then time else c.lastHoverTime
  let act0 : Bool := if d < influenceRadius then true else c.isActivated
  let actTime := if d < influenceRadius ∧ c.isActivated = false then time else c.activationTime
  let timeSinceLastHover := time - lastHover
  let tlAct : ℝ × Bool :=
    if act0 = true then
      if d < influenceRadius then
        (70 + (1 - d / influenceRadius) * 30, act0)
      else if timeSinceLastHover < fadeOutDuration then
        (65 * (1 - timeSinceLastHover / fadeOutDuration), act0)
      else
        (0, false)
    else
      (0, act0)
  let td : ℝ × ℝ :=
    if d < influenceRadius * 1.5 then
      let techRipple := Real.sin (d * 0.1 - time * 0.008) * 0.5 + 0.5
      let angleToMouse := atan2 (my - c.y) (mx - c.x)
      (Real.cos angleToMouse * 15 * techRipple, Real.sin angleToMouse * 15 * techRipple)
    else
      (0, 0)
  let organicX := noise c.x c.y (time + c.noiseOffset) * 3
  let organicY := noise c.y c.x (time + c.noiseOffset + 100) * 3
  { c with
    lastHoverTime := lastHover,
    isActivated := tlAct.2,
    activationTime := actTime,
    targetL := tlAct.1,
    targetDistortionX := td.1 + organicX,
    targetDistortionY := td.2 + organicY }

/-- The easing pass of the render loop (lines 322–325 of the source). -/
noncomputable def easeCell (c : Cell) : Cell :=
  { c with
    lightness := c.lightness + (c.targetL - c.lightness) * 0.2,
    distortionX := c.distortionX + (c.targetDistortionX - c.distortionX) * 0.1,
    distortionY := c.distortionY + (c.targetDistortionY - c.distortionY) * 0.1 }

/-- One full simulation step of the render loop over the cell array:
the target pass over every cell, then the easing pass over every cell. -/
noncomputable def stepFrame (mx my time : ℝ) (cells : List Cell) : List Cell :=
  (cells.map (stepCellTargets mx my time)).map easeCell

/-- Iterates `n` frames of the render loop starting from simulation time `t`; each
frame first advances the clock by 16 units, then runs the simulation step. -/
noncomputable def runFrames (mx my : ℝ) : ℕ → ℝ → List Cell → List Cell
  | 0, _, cells => cells
  | n + 1, t, cells => runFrames mx my n (t + 16) (stepFrame mx my (t + 16) cells)

/-- The connection lines emitted by `drawConnections`: one segment per
connection whose both endpoints have lightness above 10. -/
noncomputable def connectionSegments (cells : List Cell) : List (ℝ × ℝ × ℝ × ℝ) :=
  cells.flatMap (fun cell =>
    if cell.lightness > 10 then
      cell.connections.filterMap (fun connectionIndex =>
        match cells.get? connectionIndex with
        | some target =>
          if target.lightness > 10 then
            some (cell.x + cell.distortionX, cell.y + cell.distortionY,
                  target.x + target.distortionX, target.y + target.distortionY)
          else none
        | none => none)
    else [])

/-- The cells for which the renderer draws a shape: only those with
lightness above 0.5 (line 327 of the source). -/
noncomputable def drawnCells (cells : List Cell) : List Cell :=
  cells.filter (fun c => decide (c.lightness > 0.5))

/-- The `hexRadius` constant of `buildCells`. -/
def hexRadius : ℝ := 25

/-- The column spacing `hexSpacing = hexRadius * 1.8`. -/
def hexSpacing : ℝ := hexRadius * 1.8

/-- The row height `rowHeight = hexRadius * Math.sqrt(3)`. -/
noncomputable def rowHeight : ℝ := hexRadius * Real.sqrt 3

/-- A default cell (used only as the out-of-range fallback of list
indexing; the source never indexes out of range in the builder). -/
def dcell : Cell :=
  { x := 0, y := 0, size := 0, hue := 0, lightness := 0, targetL := 0,
    distortionX := 0, distortionY := 0, targetDistortionX := 0,
    targetDistortionY := 0, noiseOffset := 0, isActivated := false,
    activationTime := 0, lastHoverTime := 0, type := CellType.hex,
    connections := [] }

/-- The x lattice coordinate of the cell at (row, col):
`gridArea.x + col * hexSpacing + offset` with the alternating-row offset. -/
noncomputable def latticeX (w : ℝ) (row col : ℕ) : ℝ :=
  w * 0.1 + col * hexSpacing + (if row % 2 = 0 then 0 else hexSpacing / 2)

/-- The y lattice coordinate of the cell at row: `gridArea.y + row * rowHeight`. -/
noncomputable def latticeY (h : ℝ) (row : ℕ) : ℝ :=
  h * 0.1 + row * rowHeight

/-- The lattice points visited by the nested row/column loops of
`buildCells`, in visit order. -/
def latticePoints (rows cols : ℕ) : List (ℕ × ℕ) :=
  (List.range rows).flatMap (fun row => (List.range cols).map (fun col => (row, col)))

/-- Construction of one cell from its lattice position and the four random
draws consumed for it (shape selector, color-band selector, hue jitter,
noise-offset fraction), mirroring the weighted choices of the source. -/
noncomputable def mkCell (x y rType rColor rHue rNoise : ℝ) : Cell :=
  let ts : CellType × ℝ :=
    if rType < 0.6 then (CellType.hex, hexRadius)
    else if rType < 0.8 then (CellType.square, hexRadius * 0.8)
    else if rType < 0.95 then (CellType.diamond, hexRadius * 0.7)
    else (CellType.circuit, hexRadius * 0.5)
  let hue : ℝ :=
    if rColor < 0.3 then 180 + rHue * 40
    else if rColor < 0.5 then 220 + rHue * 40
    else if rColor < 0.7 then 120 + rHue * 40
    else 280 + rHue * 40
  { x := x, y := y, size := ts.2, hue := hue, lightness := 0, targetL := 0,
    distortionX := 0, distortionY := 0, targetDistortionX := 0,
    targetDistortionY := 0, noiseOffset := rNoise * TAU, isActivated := false,
    activationTime := 0, lastHoverTime := 0, type := ts.1, connections := [] }

/-- The cell-placement loop of `buildCells` over the lattice points, with
the random stream consumed at successive indices starting at `k`: one draw
for the 0.15 gap test, then four more if the cell is kept.  Returns the
cells placed (in order) and the next unconsumed stream index. -/
noncomputable def buildCellsGo (rand : ℕ → ℝ) (w h : ℝ) :
    List (ℕ × ℕ) → ℕ → List Cell × ℕ
  | [], k => ([], k)
  | rc :: rest, k =>
    if rand k > 0.15 then
      let c := mkCell (latticeX w rc.1 rc.2) (latticeY h rc.1)
        (rand (k + 1)) (rand (k + 2)) (rand (k + 3)) (rand (k + 4))
      let p := buildCellsGo rand w h rest (k + 5)
      (c :: p.1, p.2)
    else
      buildCellsGo rand w h rest (k + 1)

/-- Build-time distance between two cells (positions only, no distortion):
`Math.sqrt((cell.x - other.x) ** 2 + (cell.y - other.y) ** 2)`. -/
noncomputable def pairDistance (c o : Cell) : ℝ :=
  Real.sqrt ((c.x - o.x) * (c.x - o.x) + (c.y - o.y) * (c.y - o.y))

/-- Inner loop of the connection phase for the cell `c`: walks the candidate
indices `js` (all indices above the owner's), and for each candidate within
`hexSpacing * 2` consumes one random draw and keeps the candidate when the
draw is above 0.7.  Returns the connection list and the next stream index. -/
noncomputable def connsInner (rand : ℕ → ℝ) (all : List Cell) (c : Cell) :
    List ℕ → ℕ → List ℕ × ℕ
  | [], k => ([], k)
  | j :: rest, k =>
    if pairDistance c (all.getD j dcell) < hexSpacing * 2 then
      let p := connsInner rand all c rest (k + 1)
      if rand k > 0.7 then (j :: p.1, p.2) else p
    else
      connsInner rand all c rest k

/-- Outer loop of the connection phase: for each cell index `i` (in order),
computes its connection list against the indices above it. -/
noncomputable def connsOuter (rand : ℕ → ℝ) (all : List Cell) :
    List ℕ → ℕ → List Cell
  | [], _ => []
  | i :: rest, k =>
    let c := all.getD i dcell
    let p := connsInner rand all c (List.range' (i + 1) (all.length - (i + 1))) k
    { c with connections := p.1 } :: connsOuter rand all rest p.2

/-- The full grid builder `buildCells(w, h)`, parameterised by the random
stream.  Computes the column/row counts from the working sub-rectangle,
places cells over the lattice, then runs the connection phase. -/
noncomputable def buildCells (rand : ℕ → ℝ) (w h : ℝ) : List Cell :=
  let cols := (⌊w * 0.8 / hexSpacing⌋).toNat
  let rows := (⌊h * 0.5 / rowHeight⌋).toNat
  let p := buildCellsGo rand w h (latticePoints rows cols) 0
  connsOuter rand p.1 (List.range p.1.length) p.2

/-! ### Characterization lemmas for the simulation step -/

theorem stepCellTargets_x (mx my t : ℝ) (c : Cell) :
    (stepCellTargets mx my t c).x = c.x := rfl

theorem stepCellTargets_y (mx my t : ℝ) (c : Cell) :
    (stepCellTargets mx my t c).y = c.y := rfl

theorem stepCellTargets_lightness (mx my t : ℝ) (c : Cell) :
    (stepCellTargets mx my t c).lightness = c.lightness := rfl

theorem stepCellTargets_distortionX (mx my t : ℝ) (c : Cell) :
    (stepCellTargets mx my t c).distortionX = c.distortionX := rfl

theorem stepCellTargets_distortionY (mx my t : ℝ) (c : Cell) :
    (stepCellTargets mx my t c).distortionY = c.distortionY := rfl

theorem easeCell_lightness (c : Cell) :
    (easeCell c).lightness = c.lightness + (c.targetL - c.lightness) * 0.2 := rfl

theorem easeCell_targetL (c : Cell) :
    (easeCell c).targetL = c.targetL := rfl

theorem easeCell_isActivated (c : Cell) :
    (easeCell c).isActivated = c.isActivated := rfl

/-- While hovered (distance below the influence radius), the step records
the hover time, activates the cell and sets the proximity brightness. -/
theorem step_hovered (mx my t : ℝ) (c : Cell)
    (h : cellDistance c mx my < influenceRadius) :
    (stepCellTargets mx my t c).targetL
        = 70 + (1 - cellDistance c mx my / influenceRadius) * 30 ∧
    (stepCellTargets mx my t c).isActivated = true ∧
    (stepCellTargets mx my t c).lastHoverTime = t := by
  simp [stepCellTargets, h]

/-- Activated but no longer hovered, within the fade window: linear fade. -/
theorem step_fade (mx my t : ℝ) (c : Cell)
    (h : ¬ cellDistance c mx my < influenceRadius) (hact : c.isActivated = true)
    (hf : t - c.lastHoverTime < fadeOutDuration) :
    (stepCellTargets mx my t c).targetL
        = 65 * (1 - (t - c.lastHoverTime) / fadeOutDuration) ∧
    (stepCellTargets mx my t c).isActivated = true ∧
    (stepCellTargets mx my t c).lastHoverTime = c.lastHoverTime := by
  simp [stepCellTargets, h, hact, hf]

/-- Activated, not hovered, fade window elapsed: full deactivation. -/
theorem step_expire (mx my t : ℝ) (c : Cell)
    (h : ¬ cellDistance c mx my < influenceRadius) (hact : c.isActivated = true)
    (hf : ¬ t - c.lastHoverTime < fadeOutDuration) :
    (stepCellTargets mx my t c).targetL = 0 ∧
    (stepCellTargets mx my t c).isActivated = false ∧
    (stepCellTargets mx my t c).lastHoverTime = c.lastHoverTime := by
  simp [stepCellTargets, h, hact, hf]

/-- Never activated and not hovered: brightness target stays zero. -/
theorem step_idle (mx my t : ℝ) (c : Cell)
    (h : ¬ cellDistance c mx my < influenceRadius) (hact : c.isActivated = false) :
    (stepCellTargets mx my t c).targetL = 0 ∧
    (stepCellTargets mx my t c).isActivated = false ∧
    (stepCellTargets mx my t c).lastHoverTime = c.lastHoverTime := by
  simp [stepCellTargets, h, hact]

/-! ### Claim C1 -/

/-- C1: for every cell currently hovered (distance below the influence
radius 80), the simulation step sets `targetL = 70 + (1 - d/80) * 30`; in
particular at distance 0 the brightness target computes to 100. -/
theorem C1_hovered_brightness (mx my t : ℝ) (c : Cell)
    (h : cellDistance c mx my < influenceRadius) :
    (stepCellTargets mx my t c).targetL
        = 70 + (1 - cellDistance c mx my / influenceRadius) * 30 ∧
    (cellDistance c mx my = 0 → (stepCellTargets mx my t c).targetL = 100) := by
  refine ⟨(step_hovered mx my t c h).1, fun h0 => ?_⟩
  rw [(step_hovered mx my t c h).1, h0]
  norm_num [influenceRadius]

/-- Concrete cell sitting exactly under the pointer (100, 50). -/
def wCell : Cell := { dcell with x := 100, y := 50 }

theorem cellDistance_wCell : cellDistance wCell 100 50 = 0 := by
  have h : ((wCell.x + wCell.distortionX) - 100) * ((wCell.x + wCell.distortionX) - 100) +
      ((wCell.y + wCell.distortionY) - 50) * ((wCell.y + wCell.distortionY) - 50) = 0 := by
    norm_num [wCell, dcell]
  unfold cellDistance
  rw [h, Real.sqrt_zero]

/-- Witness for C1: the pointer placed exactly at a cell's coordinate
gives distance 0, hence brightness target 100 on that frame. -/
theorem C1_witness :
    cellDistance wCell 100 50 < influenceRadius ∧
    (stepCellTargets 100 50 16 wCell).targetL = 100 := by
  have h0 : cellDistance wCell 100 50 = 0 := cellDistance_wCell
  have hlt : cellDistance wCell 100 50 < influenceRadius := by
    rw [h0]; norm_num [influenceRadius]
  exact ⟨hlt, (C1_hovered_brightness 100 50 16 wCell hlt).2 h0⟩

/-! ### Claim C2 -/

/-- C2: an activated cell that is not currently hovered fades linearly,
`targetL = 65 * (1 - timeSinceLastHover/2000)`, while the time since the
last hover is below 2000 simulation-time units; once the window has
elapsed the step sets `targetL = 0` and clears `isActivated`. -/
theorem C2_fade_out (mx my t : ℝ) (c : Cell)
    (h : ¬ cellDistance c mx my < influenceRadius) (hact : c.isActivated = true) :
    (t - c.lastHoverTime < fadeOutDuration →
      (stepCellTargets mx my t c).targetL
        = 65 * (1 - (t - c.lastHoverTime) / fadeOutDuration)) ∧
    (¬ t - c.lastHoverTime < fadeOutDuration →
      (stepCellTargets mx my t c).targetL = 0 ∧
      (stepCellTargets mx my t c).isActivated = false) := by
  constructor
  · intro hf
    exact (step_fade mx my t c h hact hf).1
  · intro hf
    exact ⟨(step_expire mx my t c h hact hf).1, (step_expire mx my t c h hact hf).2.1⟩

/-- Concrete activated cell at the origin, far from the pointer (9999, 0). -/
def wCellAct : Cell := { dcell with isActivated := true }

theorem cellDistance_wCellAct : cellDistance wCellAct 9999 0 = 9999 := by
  have h : ((wCellAct.x + wCellAct.distortionX) - 9999) * ((wCellAct.x + wCellAct.distortionX) - 9999) +
      ((wCellAct.y + wCellAct.distortionY) - 0) * ((wCellAct.y + wCellAct.distortionY) - 0)
      = 9999 ^ 2 := by
    norm_num [wCellAct, dcell]
  unfold cellDistance
  rw [h]
  exact Real.sqrt_sq (by norm_num)

/-- Witness for C2: an activated far-away cell 100 units after its last
hover fades to `65 * (1 - 100/2000)`, and 5000 units after its last hover
is fully deactivated. -/
theorem C2_witness :
    (¬ cellDistance wCellAct 9999 0 < influenceRadius) ∧
    wCellAct.isActivated = true ∧
    (stepCellTargets 9999 0 100 wCellAct).targetL
      = 65 * (1 - (100 - 0) / fadeOutDuration) ∧
    (stepCellTargets 9999 0 5000 wCellAct).targetL = 0 ∧
    (stepCellTargets 9999 0 5000 wCellAct).isActivated = false := by
  have hd : cellDistance wCellAct 9999 0 = 9999 := cellDistance_wCellAct
  have h : ¬ cellDistance wCellAct 9999 0 < influenceRadius := by
    rw [hd]; norm_num [influenceRadius]
  have hact : wCellAct.isActivated = true := rfl
  have hlast : wCellAct.lastHoverTime = 0 := rfl
  have h1 := (C2_fade_out 9999 0 100 wCellAct h hact).1
    (by rw [hlast]; norm_num [fadeOutDuration])
  have h2 := (C2_fade_out 9999 0 5000 wCellAct h hact).2
    (by rw [hlast]; norm_num [fadeOutDuration])
  rw [hlast] at h1
  exact ⟨h, hact, h1, h2.1, h2.2⟩

/-! ### Claim C6 -/

/-- C6: the simulation step keeps lightness within [0, 100] — the computed
brightness target always lies in [0, 100] (given the run invariant that the
recorded hover time never lies in the future), the easing update preserves
lightness ∈ [0, 100], and the build-time lightness is 0. -/
theorem C6_lightness_bounds (mx my t : ℝ) (c : Cell)
    (hlast : c.lastHoverTime ≤ t) (h0 : 0 ≤ c.lightness) (h1 : c.lightness ≤ 100) :
    (0 ≤ (stepCellTargets mx my t c).targetL ∧
      (stepCellTargets mx my t c).targetL ≤ 100) ∧
    (0 ≤ (easeCell (stepCellTargets mx my t c)).lightness ∧
      (easeCell (stepCellTargets mx my t c)).lightness ≤ 100) ∧
    (∀ px py r1 r2 r3 r4 : ℝ, (mkCell px py r1 r2 r3 r4).lightness = 0) := by
  have hd0 : 0 ≤ cellDistance c mx my := Real.sqrt_nonneg _
  have htL : 0 ≤ (stepCellTargets mx my t c).targetL ∧
      (stepCellTargets mx my t c).targetL ≤ 100 := by
    by_cases hh : cellDistance c mx my < influenceRadius
    · rw [(step_hovered mx my t c hh).1]
      simp only [influenceRadius] at hh ⊢
      constructor <;> nlinarith [hd0]
    · by_cases hact : c.isActivated = true
      · by_cases hf : t - c.lastHoverTime < fadeOutDuration
        · rw [(step_fade mx my t c hh hact hf).1]
          simp only [fadeOutDuration] at hf ⊢
          constructor <;> nlinarith [hlast]
        · rw [(step_expire mx my t c hh hact hf).1]
          norm_num
      · have hact' : c.isActivated = false := by simpa using hact
        rw [(step_idle mx my t c hh hact').1]
        norm_num
  have hls : (stepCellTargets mx my t c).lightness = c.lightness := rfl
  refine ⟨htL, ⟨?_, ?_⟩, fun _ _ _ _ _ _ => rfl⟩
  · rw [easeCell_lightness, hls]
    nlinarith [htL.1, htL.2]
  · rw [easeCell_lightness, hls]
    nlinarith [htL.1, htL.2]

/-- Witness for C6: the bounds hold for a concrete build-state cell. -/
theorem C6_witness :
    wCell.lastHoverTime ≤ 16 ∧ 0 ≤ wCell.lightness ∧ wCell.lightness ≤ 100 ∧
    (0 ≤ (stepCellTargets 0 0 16 wCell).targetL ∧
      (stepCellTargets 0 0 16 wCell).targetL ≤ 100) ∧
    (0 ≤ (easeCell (stepCellTargets 0 0 16 wCell)).lightness ∧
      (easeCell (stepCellTargets 0 0 16 wCell)).lightness ≤ 100) := by
  have h := C6_lightness_bounds 0 0 16 wCell (by norm_num [wCell, dcell])
    (by norm_num [wCell, dcell]) (by norm_num [wCell, dcell])
  exact ⟨by norm_num [wCell, dcell], by norm_num [wCell, dcell],
    by norm_num [wCell, dcell], h.1, h.2.1⟩

/-! ### Claim C7 -/

/-- C7: a hovered cell's brightness target lies in [70, 100]; the easing
update moves lightness toward the brightness target without overshooting
it; and when the target equals the lightness exactly (and the step leaves
the target unchanged), one simulation step leaves the lightness unchanged. -/
theorem C7_easing_behavior (mx my t : ℝ) (c : Cell) :
    (cellDistance c mx my < influenceRadius →
      70 ≤ (stepCellTargets mx my t c).targetL ∧
      (stepCellTargets mx my t c).targetL ≤ 100) ∧
    (c.lightness ≤ c.targetL →
      c.lightness ≤ (easeCell c).lightness ∧ (easeCell c).lightness ≤ c.targetL) ∧
    (c.targetL ≤ c.lightness →
      c.targetL ≤ (easeCell c).lightness ∧ (easeCell c).lightness ≤ c.lightness) ∧
    (c.targetL = c.lightness → (easeCell c).lightness = c.lightness) ∧
    ((stepCellTargets mx my t c).targetL = c.targetL → c.targetL = c.lightness →
      (easeCell (stepCellTargets mx my t c)).lightness = c.lightness) := by
  have hd0 : 0 ≤ cellDistance c mx my := Real.sqrt_nonneg _
  refine ⟨fun hh => ?_, fun hle => ?_, fun hge => ?_, fun he => ?_, fun h1 h2 => ?_⟩
  · rw [(step_hovered mx my t c hh).1]
    simp only [influenceRadius] at hh ⊢
    constructor <;> nlinarith [hd0]
  · rw [easeCell_lightness]
    constructor <;> nlinarith [hle]
  · rw [easeCell_lightness]
    constructor <;> nlinarith [hge]
  · rw [easeCell_lightness, he]
    ring
  · rw [easeCell_lightness, stepCellTargets_lightness, h1, h2]
    ring

/-- Witness for C7: the hovered-bounds part at a cell under the pointer,
and the idempotence parts at concrete cells with target equal to
lightness. -/
theorem C7_witness :
    (cellDistance wCell 100 50 < influenceRadius ∧
      70 ≤ (stepCellTargets 100 50 16 wCell).targetL ∧
      (stepCellTargets 100 50 16 wCell).targetL ≤ 100) ∧
    (dcell.targetL = dcell.lightness ∧ (easeCell dcell).lightness = dcell.lightness) ∧
    ((stepCellTargets 9999 0 5000 wCellAct).targetL = wCellAct.targetL ∧
      wCellAct.targetL = wCellAct.lightness ∧
      (easeCell (stepCellTargets 9999 0 5000 wCellAct)).lightness = wCellAct.lightness) := by
  have hlt : cellDistance wCell 100 50 < influenceRadius := by
    rw [cellDistance_wCell]; norm_num [influenceRadius]
  have h1 := (C7_easing_behavior 100 50 16 wCell).1 hlt
  have h2 := (C7_easing_behavior 0 0 0 dcell).2.2.2.1 rfl
  have hfar : ¬ cellDistance wCellAct 9999 0 < influenceRadius := by
    rw [cellDistance_wCellAct]; norm_num [influenceRadius]
  have hexp := step_expire 9999 0 5000 wCellAct hfar rfl
    (by norm_num [wCellAct, dcell, fadeOutDuration])
  have hstep : (stepCellTargets 9999 0 5000 wCellAct).targetL = wCellAct.targetL := by
    rw [hexp.1]; rfl
  have h3 := (C7_easing_behavior 9999 0 5000 wCellAct).2.2.2.2 hstep rfl
  exact ⟨⟨hlt, h1⟩, ⟨rfl, h2⟩, ⟨hstep, rfl, h3⟩⟩

/-! ### Claim C8 -/

/-- C8: one simulation frame leaves the fields `x`, `y`, `size`, `hue`,
`type`, `noiseOffset` and `connections` of every cell unchanged. -/
theorem C8_frame_immutables (mx my t : ℝ) (cells : List Cell) :
    (stepFrame mx my t cells).map
        (fun c => (c.x, c.y, c.size, c.hue, c.type, c.noiseOffset, c.connections))
      = cells.map
        (fun c => (c.x, c.y, c.size, c.hue, c.type, c.noiseOffset, c.connections)) := by
  induction cells with
  | nil => rfl
  | cons c cs ih =>
    simp only [stepFrame, List.map_cons] at ih ⊢
    exact congrArg₂ List.cons rfl ih

/-! ### Claim C10 -/

/-- The per-frame simulation step threaded through the ambient random
stream (stream function plus next index): the render-loop body of the
source makes no `Math.random()` call, so the index comes back unchanged
and the resulting cells cannot depend on the stream. -/
noncomputable def stepFrameRand (rand : ℕ → ℝ) (k : ℕ) (mx my time : ℝ)
    (cells : List Cell) : List Cell × ℕ :=
  (stepFrame mx my time cells, k)

/-- C10: the per-frame simulation step is deterministic — identical cell
state, pointer position and simulation time give identical updated cells —
and it neither consumes nor depends on the random stream, which is only an
input of `buildCells`. -/
theorem C10_step_deterministic (mx1 my1 t1 mx2 my2 t2 : ℝ) (cs1 cs2 : List Cell)
    (r1 r2 : ℕ → ℝ) (k : ℕ)
    (hmx : mx1 = mx2) (hmy : my1 = my2) (ht : t1 = t2) (hcs : cs1 = cs2) :
    stepFrame mx1 my1 t1 cs1 = stepFrame mx2 my2 t2 cs2 ∧
    stepFrameRand r1 k mx1 my1 t1 cs1 = stepFrameRand r2 k mx1 my1 t1 cs1 ∧
    (stepFrameRand r1 k mx1 my1 t1 cs1).2 = k := by
  subst hmx hmy ht hcs
  exact ⟨rfl, rfl, rfl⟩

/-- Witness for C10 at concrete inputs. -/
theorem C10_witness :
    stepFrame 3 4 16 [wCell] = stepFrame 3 4 16 [wCell] ∧
    stepFrameRand (fun _ => 0) 7 3 4 16 [wCell]
      = stepFrameRand (fun _ => 1) 7 3 4 16 [wCell] ∧
    (stepFrameRand (fun _ => 0) 7 3 4 16 [wCell]).2 = 7 :=
  C10_step_deterministic 3 4 16 3 4 16 [wCell] [wCell]
    (fun _ => 0) (fun _ => 1) 7 rfl rfl rfl rfl

/-! ### Claim C9 -/

theorem latticePoints_cols_zero (rows : ℕ) : latticePoints rows 0 = [] := by
  simp [latticePoints]

theorem latticePoints_rows_zero (cols : ℕ) : latticePoints 0 cols = [] := by
  simp [latticePoints]

/-- C9: a zero-size viewport produces an empty cell set, and on an empty
cell set the simulation step and both cell-drawing passes of the renderer
do no per-cell work. -/
theorem C9_degenerate_inputs (rand : ℕ → ℝ) (w h mx my t : ℝ) :
    buildCells rand 0 h = [] ∧ buildCells rand w 0 = [] ∧
    stepFrame mx my t [] = [] ∧ drawnCells [] = [] ∧
    connectionSegments [] = [] := by
  refine ⟨?_, ?_, rfl, rfl, rfl⟩
  · simp [buildCells, latticePoints_cols_zero, buildCellsGo, connsOuter]
  · simp [buildCells, latticePoints_rows_zero, buildCellsGo, connsOuter]

/-! ### Claim C3 -/

theorem abs_noise_le (x y t : ℝ) : |noise x y t| ≤ 0.99 := by
  have h1 := Real.neg_one_le_sin (x * 0.01 + t * 0.002)
  have h2 := Real.sin_le_one (x * 0.01 + t * 0.002)
  have h3 := Real.neg_one_le_sin (y * 0.015 + t * 0.003)
  have h4 := Real.sin_le_one (y * 0.015 + t * 0.003)
  have h5 := Real.neg_one_le_sin ((x + y) * 0.008 + t * 0.001)
  have h6 := Real.sin_le_one ((x + y) * 0.008 + t * 0.001)
  rw [noise, abs_le]
  constructor <;> nlinarith

/-- The displaced horizontal offset from the pointer is a lower bound on
the distance to the pointer. -/
theorem cellDistance_ge_dx (c : Cell) (mx my : ℝ)
    (h : 0 ≤ c.x + c.distortionX - mx) :
    c.x + c.distortionX - mx ≤ cellDistance c mx my := by
  unfold cellDistance
  calc c.x + c.distortionX - mx
      = Real.sqrt ((c.x + c.distortionX - mx) * (c.x + c.distortionX - mx)) :=
        (Real.sqrt_mul_self h).symm
    _ ≤ _ := by
        apply Real.sqrt_le_sqrt
        nlinarith [mul_self_nonneg ((c.y + c.distortionY) - my)]

/-- Outside 1.5 times the influence radius only the procedural noise
contributes to the distortion targets. -/
theorem step_far_distortion (mx my t : ℝ) (c : Cell)
    (h : ¬ cellDistance c mx my < influenceRadius * 1.5) :
    (stepCellTargets mx my t c).targetDistortionX
        = noise c.x c.y (t + c.noiseOffset) * 3 ∧
    (stepCellTargets mx my t c).targetDistortionY
        = noise c.y c.x (t + c.noiseOffset + 100) * 3 := by
  simp [stepCellTargets, h]

theorem easeCell_distortionX (c : Cell) :
    (easeCell c).distortionX
      = c.distortionX + (c.targetDistortionX - c.distortionX) * 0.1 := rfl

/-- The "calm" invariant of a cell under a far-away pointer: deactivated,
dark, nonnegative x coordinate, small horizontal distortion. -/
def calmCell (c : Cell) : Prop :=
  c.isActivated = false ∧ c.lightness = 0 ∧ 0 ≤ c.x ∧ |c.distortionX| ≤ 3

/-- One simulation step with the pointer at `mx ≤ -123` preserves the calm
invariant. -/
theorem step_preserves_calm (mx my t : ℝ) (c : Cell)
    (hmx : mx ≤ -123) (hc : calmCell c) :
    calmCell (easeCell (stepCellTargets mx my t c)) := by
  obtain ⟨hact, hl, hx, hdx⟩ := hc
  have hdx' := abs_le.mp hdx
  have hA : (120 : ℝ) ≤ c.x + c.distortionX - mx := by linarith
  have hd : (120 : ℝ) ≤ cellDistance c mx my :=
    le_trans hA (cellDistance_ge_dx c mx my (by linarith))
  have hnh : ¬ cellDistance c mx my < influenceRadius := by
    rw [influenceRadius]; push_neg; linarith
  have hnd : ¬ cellDistance c mx my < influenceRadius * 1.5 := by
    rw [influenceRadius]; push_neg; linarith
  have hidle := step_idle mx my t c hnh hact
  have hfar := step_far_distortion mx my t c hnd
  have hnoise := abs_noise_le c.x c.y (t + c.noiseOffset)
  have hnoise' := abs_le.mp hnoise
  refine ⟨?_, ?_, ?_, ?_⟩
  · rw [easeCell_isActivated]
    exact hidle.2.1
  · rw [easeCell_lightness, stepCellTargets_lightness, hidle.1, hl]
    ring
  · rw [show (easeCell (stepCellTargets mx my t c)).x = c.x from rfl]
    exact hx
  · rw [easeCell_distortionX, stepCellTargets_distortionX, hfar.1, abs_le]
    constructor <;> nlinarith

/-- The calm invariant propagates through a whole frame of the loop. -/
theorem stepFrame_preserves_calm (mx my t : ℝ) (cells : List Cell)
    (hmx : mx ≤ -123) (hc : ∀ c ∈ cells, calmCell c) :
    ∀ c' ∈ stepFrame mx my t cells, calmCell c' := by
  intro c' hmem
  simp only [stepFrame, List.mem_map] at hmem
  obtain ⟨s, ⟨c, hcmem, rfl⟩, rfl⟩ := hmem
  exact step_preserves_calm mx my t c hmx (hc c hcmem)

/-- The calm invariant propagates through any number of frames. -/
theorem runFrames_preserves_calm (mx my : ℝ) (hmx : mx ≤ -123) :
    ∀ (n : ℕ) (t0 : ℝ) (cells : List Cell), (∀ c ∈ cells, calmCell c) →
      ∀ c' ∈ runFrames mx my n t0 cells, calmCell c' := by
  intro n
  induction n with
  | zero => intro t0 cells hc c' h'; exact hc c' h'
  | succ n ih =>
    intro t0 cells hc c' h'
    exact ih (t0 + 16) (stepFrame mx my (t0 + 16) cells)
      (stepFrame_preserves_calm mx my (t0 + 16) cells hmx hc) c' h'

/-- A cell set in which no cell has lightness above 10 draws no
connection segments. -/
theorem connectionSegments_eq_nil (cells : List Cell)
    (h : ∀ c ∈ cells, ¬ c.lightness > 10) : connectionSegments cells = [] := by
  unfold connectionSegments
  rw [List.flatMap_eq_nil_iff]
  intro c hc
  rw [if_neg (h c hc)]

/-- C3: with the pointer held far outside the grid (in particular at the
sentinel (-9999, -9999)), cells in their build state never activate, their
lightness stays 0 over any number of frames, and no connection lines are
drawn. -/
theorem C3_sentinel_stays_dark (mx my t0 : ℝ) (n : ℕ) (cells : List Cell)
    (hmx : mx ≤ -123)
    (hinit : ∀ c ∈ cells, c.isActivated = false ∧ c.lightness = 0 ∧
      c.distortionX = 0 ∧ 0 ≤ c.x) :
    (∀ c' ∈ runFrames mx my n t0 cells,
      c'.isActivated = false ∧ c'.lightness = 0) ∧
    connectionSegments (runFrames mx my n t0 cells) = [] := by
  have hcalm0 : ∀ c ∈ cells, calmCell c := by
    intro c hc
    obtain ⟨h1, h2, h3, h4⟩ := hinit c hc
    exact ⟨h1, h2, h4, by rw [h3]; norm_num⟩
  have hcalm := runFrames_preserves_calm mx my hmx n t0 cells hcalm0
  refine ⟨fun c' h' => ⟨(hcalm c' h').1, (hcalm c' h').2.1⟩, ?_⟩
  apply connectionSegments_eq_nil
  intro c' h'
  rw [(hcalm c' h').2.1]
  norm_num

/-- Witness for C3: a single build-state cell, sentinel pointer, one frame:
the stepped cell is still deactivated and dark, and no segments are drawn. -/
theorem C3_witness :
    ((-9999 : ℝ) ≤ -123) ∧
    (wCell.isActivated = false ∧ wCell.lightness = 0 ∧
      wCell.distortionX = 0 ∧ 0 ≤ wCell.x) ∧
    (easeCell (stepCellTargets (-9999) (-9999) 16 wCell)).isActivated = false ∧
    (easeCell (stepCellTargets (-9999) (-9999) 16 wCell)).lightness = 0 ∧
    connectionSegments (runFrames (-9999) (-9999) 1 0 [wCell]) = [] := by
  have h := C3_sentinel_stays_dark (-9999) (-9999) 0 1 [wCell] (by norm_num)
    (by
      intro c hc
      rw [List.mem_singleton] at hc
      subst hc
      exact ⟨rfl, rfl, rfl, by norm_num [wCell, dcell]⟩)
  have hrun : runFrames (-9999 : ℝ) (-9999) 1 0 [wCell]
      = [easeCell (stepCellTargets (-9999) (-9999) 16 wCell)] := by
    norm_num [runFrames, stepFrame]
  have hmem : easeCell (stepCellTargets (-9999) (-9999) 16 wCell)
      ∈ runFrames (-9999 : ℝ) (-9999) 1 0 [wCell] := by
    rw [hrun]
    exact List.mem_singleton.mpr rfl
  exact ⟨by norm_num, ⟨rfl, rfl, rfl, by norm_num [wCell, dcell]⟩,
    (h.1 _ hmem).1, (h.1 _ hmem).2, h.2⟩

/-! ### Claim C4 -/

theorem mkCell_x (x y a b e f : ℝ) : (mkCell x y a b e f).x = x := rfl

theorem mkCell_y (x y a b e f : ℝ) : (mkCell x y a b e f).y = y := rfl

/-- Every cell placed by the lattice loop sits at one of the visited
lattice points. -/
theorem buildCellsGo_mem (rand : ℕ → ℝ) (w h : ℝ) :
    ∀ (pts : List (ℕ × ℕ)) (k : ℕ), ∀ c ∈ (buildCellsGo rand w h pts k).1,
      ∃ rc ∈ pts, c.x = latticeX w rc.1 rc.2 ∧ c.y = latticeY h rc.1 := by
  intro pts
  induction pts with
  | nil =>
    intro k c hc
    simp [buildCellsGo] at hc
  | cons rc rest ih =>
    intro k c hc
    simp only [buildCellsGo] at hc
    by_cases hr : rand k > 0.15
    · rw [if_pos hr] at hc
      rcases List.mem_cons.mp hc with h1 | h2
      · exact ⟨rc, List.mem_cons_self rc rest, by rw [h1, mkCell_x], by rw [h1, mkCell_y]⟩
      · obtain ⟨rc', hrc', hx, hy⟩ := ih (k + 5) c h2
        exact ⟨rc', List.mem_cons_of_mem rc hrc', hx, hy⟩
    · rw [if_neg hr] at hc
      obtain ⟨rc', hrc', hx, hy⟩ := ih (k + 1) c hc
      exact ⟨rc', List.mem_cons_of_mem rc hrc', hx, hy⟩

/-- Every cell emitted by the connection phase has the position of one of
the cells it was given (only `connections` is replaced). -/
theorem connsOuter_mem (rand : ℕ → ℝ) (all : List Cell) :
    ∀ (idxs : List ℕ) (k : ℕ), ∀ c' ∈ connsOuter rand all idxs k,
      ∃ i ∈ idxs, c'.x = (all.getD i dcell).x ∧ c'.y = (all.getD i dcell).y := by
  intro idxs
  induction idxs with
  | nil =>
    intro k c' hc
    simp [connsOuter] at hc
  | cons i0 rest ih =>
    intro k c' hc
    simp only [connsOuter] at hc
    rcases List.mem_cons.mp hc with h1 | h2
    · exact ⟨i0, List.mem_cons_self i0 rest, by rw [h1], by rw [h1]⟩
    · obtain ⟨i, hi, hx, hy⟩ := ih _ c' h2
      exact ⟨i, List.mem_cons_of_mem i0 hi, hx, hy⟩

/-- Membership in the nested row/column loop ranges. -/
theorem latticePoints_mem {rc : ℕ × ℕ} {rows cols : ℕ}
    (h : rc ∈ latticePoints rows cols) : rc.1 < rows ∧ rc.2 < cols := by
  simp only [latticePoints, List.mem_flatMap, List.mem_map, List.mem_range] at h
  obtain ⟨row, hrow, col, hcol, hrc⟩ := h
  rw [← hrc]
  exact ⟨hrow, hcol⟩

/-- If `⌊z / s⌋.toNat` is positive then it scales back below `z`. -/
theorem toNat_floor_mul_le (z s : ℝ) (hs : 0 < s) (n : ℕ)
    (hn : n = (⌊z / s⌋).toNat) (hpos : 0 < n) : (n : ℝ) * s ≤ z := by
  have h1 : (0 : ℤ) < ⌊z / s⌋ := by
    by_contra hcon
    push_neg at hcon
    rw [hn, Int.toNat_of_nonpos hcon] at hpos
    exact lt_irrefl 0 hpos
  have h3 : ((n : ℕ) : ℝ) = ((⌊z / s⌋ : ℤ) : ℝ) := by
    rw [hn]
    norm_cast
    exact Int.toNat_of_nonneg h1.le
  have h2 : (n : ℝ) ≤ z / s := by
    rw [h3]
    exact Int.floor_le _
  exact (le_div_iff₀ hs).mp h2

theorem latticeX_bounds (w : ℝ) (row col cols : ℕ) (hcol : col < cols)
    (hcols : (cols : ℝ) * hexSpacing ≤ w * 0.8) :
    w * 0.1 ≤ latticeX w row col ∧ latticeX w row col ≤ w * 0.1 + w * 0.8 := by
  have h1 : (col : ℝ) ≤ (cols : ℝ) - 1 := by
    have : (col : ℝ) + 1 ≤ (cols : ℝ) := by exact_mod_cast hcol
    linarith
  have h0 : (0 : ℝ) ≤ (col : ℝ) := Nat.cast_nonneg col
  unfold latticeX
  unfold hexSpacing hexRadius at hcols ⊢
  constructor
  · split_ifs <;> nlinarith
  · split_ifs <;> nlinarith

theorem rowHeight_pos : (0 : ℝ) < rowHeight := by
  unfold rowHeight hexRadius
  have : (0 : ℝ) < Real.sqrt 3 := Real.sqrt_pos.mpr (by norm_num)
  nlinarith

theorem latticeY_bounds (h : ℝ) (row rows : ℕ) (hrow : row < rows)
    (hrows : (rows : ℝ) * rowHeight ≤ h * 0.5) :
    h * 0.1 ≤ latticeY h row ∧ latticeY h row ≤ h * 0.1 + h * 0.5 := by
  have h1 : (row : ℝ) ≤ (rows : ℝ) - 1 := by
    have : (row : ℝ) + 1 ≤ (rows : ℝ) := by exact_mod_cast hrow
    linarith
  have h0 : (0 : ℝ) ≤ (row : ℝ) := Nat.cast_nonneg row
  have hrh := rowHeight_pos
  unfold latticeY
  constructor
  · nlinarith
  · nlinarith

/-- C4: every cell generated by the grid builder lies inside the working
sub-rectangle `[0.1w, 0.1w + 0.8w] × [0.1h, 0.1h + 0.5h]`. -/
theorem C4_cells_in_bounds (rand : ℕ → ℝ) (w h : ℝ) :
    (buildCells rand w h).Forall (fun c =>
      w * 0.1 ≤ c.x ∧ c.x ≤ w * 0.1 + w * 0.8 ∧
      h * 0.1 ≤ c.y ∧ c.y ≤ h * 0.1 + h * 0.5) := by
  rw [List.forall_iff_forall_mem]
  intro c hc
  simp only [buildCells] at hc
  obtain ⟨i, hi, hx, hy⟩ := connsOuter_mem rand _ _ _ c hc
  rw [List.mem_range] at hi
  have hmem : (buildCellsGo rand w h
      (latticePoints (⌊h * 0.5 / rowHeight⌋).toNat (⌊w * 0.8 / hexSpacing⌋).toNat) 0).1.getD i dcell
      ∈ (buildCellsGo rand w h
      (latticePoints (⌊h * 0.5 / rowHeight⌋).toNat (⌊w * 0.8 / hexSpacing⌋).toNat) 0).1 := by
    rw [List.getD_eq_getElem _ _ hi]
    exact List.getElem_mem hi
  obtain ⟨rc, hrc, hx', hy'⟩ := buildCellsGo_mem rand w h _ 0 _ hmem
  obtain ⟨hrow, hcol⟩ := latticePoints_mem hrc
  have hcols : ((⌊w * 0.8 / hexSpacing⌋).toNat : ℝ) * hexSpacing ≤ w * 0.8 :=
    toNat_floor_mul_le (w * 0.8) hexSpacing
      (by unfold hexSpacing hexRadius; norm_num) _ rfl (Nat.zero_lt_of_lt hcol)
  have hrows : ((⌊h * 0.5 / rowHeight⌋).toNat : ℝ) * rowHeight ≤ h * 0.5 :=
    toNat_floor_mul_le (h * 0.5) rowHeight rowHeight_pos _ rfl
      (Nat.zero_lt_of_lt hrow)
  have hbx := latticeX_bounds w rc.1 rc.2 _ hcol hcols
  have hby := latticeY_bounds h rc.1 _ hrow hrows
  rw [hx, hx', hy, hy']
  exact ⟨hbx.1, hbx.2, hby.1, hby.2⟩

/-! ### Claim C5 -/

/-- Every index kept by the inner connection loop is one of its candidates. -/
theorem connsInner_subset (rand : ℕ → ℝ) (all : List Cell) (c : Cell) :
    ∀ (js : List ℕ) (k : ℕ), ∀ j ∈ (connsInner rand all c js k).1, j ∈ js := by
  intro js
  induction js with
  | nil =>
    intro k j hj
    simp [connsInner] at hj
  | cons j0 rest ih =>
    intro k j hj
    simp only [connsInner] at hj
    by_cases hd : pairDistance c (all.getD j0 dcell) < hexSpacing * 2
    · rw [if_pos hd] at hj
      by_cases hr : rand k > 0.7
      · rw [if_pos hr] at hj
        rcases List.mem_cons.mp hj with h1 | h2
        · rw [h1]
          exact List.mem_cons_self j0 rest
        · exact List.mem_cons_of_mem j0 (ih (k + 1) j h2)
      · rw [if_neg hr] at hj
        exact List.mem_cons_of_mem j0 (ih (k + 1) j hj)
    · rw [if_neg hd] at hj
      exact List.mem_cons_of_mem j0 (ih k j hj)

/-- The connection phase emits one cell per processed index. -/
theorem connsOuter_length (rand : ℕ → ℝ) (all : List Cell) :
    ∀ (idxs : List ℕ) (k : ℕ), (connsOuter rand all idxs k).length = idxs.length := by
  intro idxs
  induction idxs with
  | nil => intro k; rfl
  | cons i0 rest ih =>
    intro k
    simp only [connsOuter, List.length_cons]
    rw [ih]

/-- Every connection index stored for the cell at output position `i` lies
strictly between the processed index at position `i` and the cell count. -/
theorem connsOuter_conn_bounds (rand : ℕ → ℝ) (all : List Cell) :
    ∀ (idxs : List ℕ) (k : ℕ) (i : ℕ), i < idxs.length →
      ∀ j ∈ ((connsOuter rand all idxs k).getD i dcell).connections,
        idxs.getD i 0 < j ∧ j < all.length := by
  intro idxs
  induction idxs with
  | nil =>
    intro k i hi
    simp at hi
  | cons i0 rest ih =>
    intro k i hi j hj
    cases i with
    | zero =>
      simp only [connsOuter, List.getD_cons_zero] at hj
      have hsub := connsInner_subset rand all (all.getD i0 dcell)
        (List.range' (i0 + 1) (all.length - (i0 + 1))) k j hj
      rw [List.mem_range'_1] at hsub
      rw [List.getD_cons_zero]
      omega
    | succ i' =>
      simp only [connsOuter, List.getD_cons_succ] at hj
      rw [List.getD_cons_succ]
      exact ih _ i' (by simpa using hi) j hj

/-- Structural invariant of a cell list: the connection indices of the cell
at each position `i` are valid indices strictly greater than `i`. -/
def connOK (cells : List Cell) : Prop :=
  (List.range cells.length).Forall (fun i =>
    ((cells.getD i dcell).connections).Forall (fun j => i < j ∧ j < cells.length))

/-- C5: in every built cell set each connection entry `j` of the cell at
index `i` satisfies `i < j < cellCount`, and the simulation step leaves
every cell's connection list unchanged. -/
theorem C5_connection_invariant (rand : ℕ → ℝ) (w h mx my t : ℝ) :
    connOK (buildCells rand w h) ∧
    (stepFrame mx my t (buildCells rand w h)).map (fun c => c.connections)
      = (buildCells rand w h).map (fun c => c.connections) := by
  constructor
  · unfold connOK
    rw [List.forall_iff_forall_mem]
    intro i hi
    rw [List.forall_iff_forall_mem]
    intro j hj
    simp only [buildCells] at hi hj ⊢
    rw [List.mem_range] at hi
    rw [connsOuter_length] at hi
    rw [List.length_range] at hi
    have hb := connsOuter_conn_bounds rand _ (List.range (buildCellsGo rand w h
      (latticePoints (⌊h * 0.5 / rowHeight⌋).toNat (⌊w * 0.8 / hexSpacing⌋).toNat) 0).1.length)
      (buildCellsGo rand w h
      (latticePoints (⌊h * 0.5 / rowHeight⌋).toNat (⌊w * 0.8 / hexSpacing⌋).toNat) 0).2 i
      (by rw [List.length_range]; exact hi) j hj
    rw [List.getD_eq_getElem _ _ (by rw [List.length_range]; exact hi),
      List.getElem_range] at hb
    rw [connsOuter_length, List.length_range]
    exact hb
  · induction buildCells rand w h with
    | nil => rfl
    | cons c cs ih =>
      simp only [stepFrame, List.map_cons] at ih ⊢
      exact congrArg₂ List.cons rfl ih

end InteractiveGrid
